import Mathlib

/-
Verification development for the mikecreighton.com content crawler and MCP
content server (source files: download.py and server.py).

The Python code is shallowly embedded: strings are Lean String values
(lists of characters), dictionaries are association lists preserving
insertion order, the file system is a map from path to optional contents,
and exceptions are modelled with Except / Option.  Library collaborators
(urllib.parse, the json module, BeautifulSoup, requests) are modelled
structurally, as documented at each definition.

The file is organized as definitions first, then theorems.
-/

set_option maxHeartbeats 1000000

/-! # Definitions -/

/-! ## Python string primitives -/

/-- Model of the Python test `c == "/"` used through str.strip variants. -/
def isSlash (c : Char) : Bool := c = '/'

/-- Model of Python `s.lstrip("/")`: drop every leading slash character. -/
def lstripSlash (l : List Char) : List Char := l.dropWhile isSlash

/-- Model of Python `s.rstrip("/")`: drop every trailing slash character. -/
def rstripSlash (l : List Char) : List Char := (l.reverse.dropWhile isSlash).reverse

/-- Model of Python `s.startswith(pre)`: character-list prefix test. -/
def pyStartswith (s pre : String) : Bool := pre.data.isPrefixOf s.data

/-- Infix test on character lists: the needle occurs contiguously in the
haystack.  Used to model the Python `in` operator on strings. -/
def infixCheck (n : List Char) : List Char → Bool
  | [] => n.isEmpty
  | c :: rest => n.isPrefixOf (c :: rest) || infixCheck n rest

/-- Model of the Python substring operator `needle in hay`. -/
def pyIn (needle hay : String) : Bool := infixCheck needle.data hay.data

/-- Model of Python `s.lower()` (single-character case mapping). -/
def pyLower (s : String) : String := ⟨s.data.map Char.toLower⟩

/-! ## Path normalizer (download.py, WebsiteCrawler.get_normalized_path)

The Python function receives a URL, extracts its path component with
`urllib.parse.urlparse`, and then strips slashes from that path.  The
extraction is modelled after the CPython implementation of urlsplit and
urlparse on inputs free of the control characters and leading spaces
that urlsplit removes: split off a scheme (a leading ASCII letter
followed by scheme characters up to the first colon), then a netloc
(after a leading "//", up to the next slash, question mark or hash),
then the fragment (first hash) and query (first question mark), and
finally the params of the last path segment (first semicolon after the
last slash). -/

/-- Core of get_normalized_path on character lists: strip trailing
slashes, map the empty result to "index", else strip leading slashes. -/
def normListPath (l : List Char) : List Char :=
  if rstripSlash l = [] then "index".data else lstripSlash (rstripSlash l)

/-- ASCII letter, as CPython requires of the first scheme character. -/
def isAsciiAlpha (c : Char) : Bool :=
  (65 ≤ c.toNat ∧ c.toNat ≤ 90) ∨ (97 ≤ c.toNat ∧ c.toNat ≤ 122)

/-- Characters allowed inside a URL scheme after the leading letter:
letters, digits, plus, minus and dot. -/
def isSchemeChar (c : Char) : Bool :=
  isAsciiAlpha c ∨ (48 ≤ c.toNat ∧ c.toNat ≤ 57) ∨ c = '+' ∨ c = '-' ∨ c = '.'

/-- Scan scheme characters up to a colon; some gives the text after the
colon, none means no valid scheme ends here. -/
def schemeRest : List Char → Option (List Char)
  | [] => none
  | c :: rest =>
    if c = ':' then some rest
    else if isSchemeChar c then schemeRest rest
    else none

/-- Scheme removal of urlsplit: a leading ASCII letter followed by
scheme characters and a colon is stripped together with the colon. -/
def dropScheme : List Char → List Char
  | [] => []
  | c :: rest =>
    if isAsciiAlpha c then (schemeRest rest).getD (c :: rest) else c :: rest

/-- Characters ending the netloc in _splitnetloc. -/
def isNetlocDelim (c : Char) : Bool := c = '/' ∨ c = '?' ∨ c = '#'

/-- Netloc removal of urlsplit: after a leading "//", everything up to
the next slash, question mark or hash is dropped. -/
def dropNetloc : List Char → List Char
  | [] => []
  | [a] => [a]
  | a :: b :: rest =>
    if a = '/' ∧ b = '/' then rest.dropWhile (fun c => !isNetlocDelim c)
    else a :: b :: rest

/-- Fragment or query delimiter. -/
def isQueryFrag (c : Char) : Bool := c = '#' ∨ c = '?'

/-- Fragment and query removal: the path ends at the first hash or
question mark. -/
def dropQueryFrag (l : List Char) : List Char :=
  l.takeWhile fun c => !isQueryFrag c

/-- Semicolon test for the params split of urlparse. -/
def isSemi (c : Char) : Bool := c = ';'

/-- Params removal of urlparse: the last path segment is cut at its
first semicolon. -/
def dropParams (l : List Char) : List Char :=
  (l.reverse.dropWhile fun c => !isSlash c).reverse ++
    ((l.reverse.takeWhile fun c => !isSlash c).reverse.takeWhile fun c => !isSemi c)

/-- Path component of urllib.parse.urlparse: remove the scheme, the
netloc, the fragment and query, and the params of the last segment. -/
def urlparsePath (l : List Char) : List Char :=
  dropParams (dropQueryFrag (dropNetloc (dropScheme l)))

/-- Embedding of `WebsiteCrawler.get_normalized_path` (download.py):
`parsed = urlparse(url)`, `path = parsed.path.rstrip("/")`; an empty
path maps to `"index"`; otherwise the result is `path.lstrip("/")`. -/
def get_normalized_path (url : String) : String :=
  ⟨normListPath (urlparsePath url.data)⟩

/-! ## Site map data model (download.py PageInfo, server.py site map) -/

/-- Embedding of the PageInfo TypedDict from download.py. -/
structure PageInfo where
  base : String
  html : String
  markdown : String
  name : String
  description : String
deriving DecidableEq

/-- Site map: a Python dict from page identifier to page record, modelled
as an association list in insertion order. -/
abbrev SiteMap : Type := List (String × PageInfo)

/-! ## Search (server.py, search_pages) -/

/-- Entry of the list returned by search_pages. -/
structure SearchResult where
  page_id : String
  title : String
  description : String
  relevance : String
deriving DecidableEq

/-- Sort key used by `results.sort(key=lambda x: 0 if x["relevance"] == "high" else 1)`. -/
def searchKey (r : SearchResult) : Nat := if r.relevance = "high" then 0 else 1

/-- Stable insertion into a key-sorted list: the new element goes before
the first element of strictly larger key and after earlier equals. -/
def insertStable {α : Type} (k : α → Nat) (x : α) : List α → List α
  | [] => [x]
  | y :: ys => if k x ≤ k y then x :: y :: ys else y :: insertStable k x ys

/-- Stable sort by a natural-number key; models Python list.sort, which
is stable. -/
def sortStable {α : Type} (k : α → Nat) : List α → List α
  | [] => []
  | x :: xs => insertStable k x (sortStable k xs)

/-- Embedding of `search_pages` (server.py): lower-case the query, keep
pages whose lowered title or description contains it, record relevance
"high" for a title match and "medium" otherwise, then stable-sort by
relevance. -/
def search_pages (site_map : SiteMap) (query : String) : List SearchResult :=
  let q := pyLower query
  let results := site_map.foldl (fun results kv =>
    if pyIn q (pyLower kv.2.name) || pyIn q (pyLower kv.2.description) then
      results ++ [{ page_id := kv.1, title := kv.2.name, description := kv.2.description,
                    relevance := if pyIn q (pyLower kv.2.name) then "high" else "medium" }]
    else results) []
  sortStable searchKey results

/-- Row produced by the search loop for one site-map entry, with the
query already lower-cased. -/
def searchRow (q : String) (kv : String × PageInfo) : Option SearchResult :=
  if pyIn q (pyLower kv.2.name) || pyIn q (pyLower kv.2.description) then
    some { page_id := kv.1, title := kv.2.name, description := kv.2.description,
           relevance := if pyIn q (pyLower kv.2.name) then "high" else "medium" }
  else none

/-- Pages whose lowered title contains the lowered query, in site-map
order, tagged "high".  Follows the wording of the spec for the high tier
of search results. -/
def searchHighTier (m : SiteMap) (query : String) : List SearchResult :=
  m.filterMap fun kv =>
    if pyIn (pyLower query) (pyLower kv.2.name) then
      some ⟨kv.1, kv.2.name, kv.2.description, "high"⟩
    else none

/-- Pages whose lowered description (but not title) contains the lowered
query, in site-map order, tagged "medium".  Follows the wording of the
spec for the medium tier of search results. -/
def searchMediumTier (m : SiteMap) (query : String) : List SearchResult :=
  m.filterMap fun kv =>
    if !pyIn (pyLower query) (pyLower kv.2.name) && pyIn (pyLower query) (pyLower kv.2.description) then
      some ⟨kv.1, kv.2.name, kv.2.description, "medium"⟩
    else none

/-! ## Content retrieval (server.py, read_file and get_page_content) -/

/-- File system model: maps a path to its contents, or none when the
file is missing or cannot be read. -/
def FileSys : Type := String → Option String

/-- Embedding of `read_file` (server.py): strip one leading "./" and
read the file, returning none when reading fails for any reason. -/
def read_file (fs : FileSys) (file_path : String) : Option String :=
  if pyStartswith file_path "./" then fs ⟨file_path.data.drop 2⟩ else fs file_path

/-- Python dict membership and indexing for the site map. -/
def lookupPage : SiteMap → String → Option PageInfo
  | [], _ => none
  | kv :: rest, pid => if kv.1 = pid then some kv.2 else lookupPage rest pid

/-- Embedding of `get_page_content` (server.py): error when the page id
is not a key of the site map, when the markdown path of its record is
empty, or when the markdown file cannot be read; otherwise the markdown
text. -/
def get_page_content (fs : FileSys) (site_map : SiteMap) (page_id : String) :
    Except String String :=
  match lookupPage site_map page_id with
  | none => Except.error ("Page " ++ page_id ++ " not found")
  | some info =>
    if info.markdown = "" then
      Except.error ("No Markdown content available for " ++ page_id)
    else
      match read_file fs info.markdown with
      | none => Except.error ("Could not read Markdown content for " ++ page_id)
      | some content => Except.ok content

/-- Concrete one-page site map used to exercise content retrieval. -/
def mapAbout : SiteMap :=
  [("about", { base := "about", html := "./html/about.html",
               markdown := "./markdown/about.md", name := "About",
               description := "About the site" })]

/-- Concrete file system holding the markdown file of mapAbout. -/
def fsAbout : FileSys :=
  fun p => if p = "markdown/about.md" then some "hello" else none

/-! ## URLs and link extraction (download.py, extract_links)

urllib.parse is modelled structurally: a URL is its scheme, host and
path (the crawler never produces queries or fragments), and an href
attribute is either an absolute URL or a relative path reference. -/

/-- Structured URL: scheme, host and path. -/
structure Url where
  scheme : String
  host : String
  path : String
deriving DecidableEq

/-- Unparsed string form of a URL: scheme://host followed by the path. -/
def urlString (u : Url) : String := u.scheme ++ "://" ++ u.host ++ u.path

/-- Hyperlink destination: an absolute URL carrying its own scheme and
host, or a relative path reference. -/
inductive HRef where
  | absolute (u : Url)
  | relative (p : String)
deriving DecidableEq

/-- Split a character list on the slash character, as Python str.split("/"). -/
def splitSlash : List Char → List (List Char)
  | [] => [[]]
  | c :: rest =>
    if c = '/' then [] :: splitSlash rest
    else
      match splitSlash rest with
      | [] => [[c]]
      | s :: ss => (c :: s) :: ss

/-- Join segments with slashes, as Python "/".join. -/
def joinSlash : List (List Char) → List Char
  | [] => []
  | [s] => s
  | s :: rest => s ++ '/' :: joinSlash rest

/-- Dot-segment resolution of urllib.parse.urljoin: ".." pops the last
resolved segment unless only the leading empty segment remains, and "."
disappears. -/
def resolveDotSegs (acc : List (List Char)) : List (List Char) → List (List Char)
  | [] => acc
  | seg :: rest =>
    if seg = ['.', '.'] then
      resolveDotSegs (if acc.length ≥ 2 then acc.dropLast else acc) rest
    else if seg = ['.'] then resolveDotSegs acc rest
    else resolveDotSegs (acc ++ [seg]) rest

/-- Path resolution of a relative reference against a base whose path is
empty, following urllib.parse.urljoin: ensure a leading slash, resolve
dot segments, and keep a trailing slash when the last segment is "." or
"..". -/
def urljoinPath (p : List Char) : List Char :=
  let p1 := if p.head? = some '/' then p else '/' :: p
  let segs := splitSlash p1
  let res := resolveDotSegs [] segs
  let res2 :=
    match segs.getLast? with
    | some last => if last = ['.'] ∨ last = ['.', '.'] then res ++ [[]] else res
    | none => res
  joinSlash res2

/-- Embedding of `urljoin(self.base_url, href)` as the crawler uses it:
an absolute reference is returned unchanged (urljoin keeps a URL that
carries its own netloc, without touching its path), a relative reference
is resolved against the base origin, and the empty reference resolves to
the base itself. -/
def urljoin (base : Url) : HRef → Url
  | .absolute u => u
  | .relative p => if p = "" then base else { base with path := ⟨urljoinPath p.data⟩ }

/-- Default crawler base URL, https://mikecreighton.com (WebsiteCrawler init). -/
def baseUrl : Url := { scheme := "https", host := "mikecreighton.com", path := "" }

/-- Embedding of `WebsiteCrawler.extract_links` (download.py): for each
href in document order, resolve it against the base URL; keep it when
the absolute URL string starts with the base URL string; take the path
component of the absolute URL and append it unless it is empty, already
in visited, or already in to_visit. -/
def extract_links (base_url : Url) (visited to_visit : List String)
    (hrefs : List HRef) : List String :=
  hrefs.foldl (fun links href =>
    if pyStartswith (urlString (urljoin base_url href)) (urlString base_url) then
      if (urljoin base_url href).path ≠ "" ∧ (urljoin base_url href).path ∉ visited ∧
          (urljoin base_url href).path ∉ to_visit then
        links ++ [(urljoin base_url href).path]
      else links
    else links) []

/-- Path, if any, that a single href contributes to extract_links. -/
def linkRow (base_url : Url) (visited to_visit : List String) (href : HRef) :
    Option String :=
  if pyStartswith (urlString (urljoin base_url href)) (urlString base_url) ∧
      (urljoin base_url href).path ≠ "" ∧ (urljoin base_url href).path ∉ visited ∧
      (urljoin base_url href).path ∉ to_visit then
    some (urljoin base_url href).path
  else none

/-! ## File paths (download.py, get_file_paths) -/

/-- Embedding of `WebsiteCrawler.get_file_paths` (download.py): the HTML
file location, the Markdown file location and the base identifier derived
from a URL path.  Directory-creation side effects are not modelled. -/
def get_file_paths (url_path : String) : String × String × String :=
  let normalized := get_normalized_path url_path
  ("html/" ++ normalized ++ ".html", "markdown/" ++ normalized ++ ".md", normalized)

/-- True when some slash-separated segment of the string is "..". -/
def hasDotDotSeg (s : String) : Bool := (splitSlash s.data).contains ['.', '.']

/-! ## Site map store (download.py save_site_map, server.py load_site_map)

The json module is modelled by a printer that reproduces the text
json.dump(site_map, f, indent=2) writes for a site map whose strings are
printable ASCII, and by a parser for such documents that skips
whitespace between tokens as json.load does and yields none on
malformed input (JSONDecodeError). -/

/-- Escaping of the JSON string printer: quote and backslash get a
backslash, every other printable ASCII character stands for itself. -/
def quoteChar (c : Char) : List Char :=
  if c = '"' ∨ c = '\\' then ['\\', c] else [c]

/-- JSON string literal: quote, escaped characters, quote.  The printer
is written in accumulator style: every piece takes the text that follows
it, so the emitted document is built without re-association. -/
def printStrL (s : String) : List Char :=
  '"' :: ((s.data.map quoteChar).flatten ++ ['"'])

/-- n space characters. -/
def spc (n : Nat) : List Char := List.replicate n ' '

/-- The text `"key": "value"` followed by the given tail. -/
def printFieldR (key value : String) (tail : List Char) : List Char :=
  printStrL key ++ (':' :: ' ' :: (printStrL value ++ tail))

/-- One four-space-indented field line followed by the given tail. -/
def printLine4 (key value : String) (tail : List Char) : List Char :=
  spc 4 ++ printFieldR key value tail

/-- Inner JSON object for one page record, laid out as json.dump with
two-space indentation prints a nested dict, followed by the tail. -/
def printPageR (v : PageInfo) (tail : List Char) : List Char :=
  '{' :: '\n' :: printLine4 "base" v.base (',' :: '\n' ::
    printLine4 "html" v.html (',' :: '\n' ::
    printLine4 "markdown" v.markdown (',' :: '\n' ::
    printLine4 "name" v.name (',' :: '\n' ::
    printLine4 "description" v.description ('\n' :: (spc 2 ++ '}' :: tail))))))

/-- One two-space-indented top-level item followed by the tail. -/
def printItemR (kv : String × PageInfo) (tail : List Char) : List Char :=
  spc 2 ++ (printStrL kv.1 ++ (':' :: ' ' :: printPageR kv.2 tail))

/-- Top-level items joined by ",\n", followed by the tail. -/
def printItemsR : SiteMap → List Char → List Char
  | [], tail => tail
  | [kv], tail => printItemR kv tail
  | kv :: rest, tail => printItemR kv (',' :: '\n' :: printItemsR rest tail)

/-- Embedding of `save_site_map` (download.py): the text json.dump
writes to site_map.json with two-space indentation. -/
def save_site_map (m : SiteMap) : String :=
  ⟨match m with
   | [] => ['{', '}']
   | _ :: _ => '{' :: '\n' :: printItemsR m ('\n' :: ['}'])⟩

/-- JSON whitespace characters. -/
def isWs (c : Char) : Bool := c = ' ' ∨ c = '\n' ∨ c = '\t' ∨ c = '\r'

/-- Skip whitespace between tokens. -/
def skipWs (l : List Char) : List Char := l.dropWhile isWs

/-- Parse the body of a JSON string after the opening quote, honouring
the escapes the printer emits; yields the content and the remainder
after the closing quote. -/
def parseStrBody : List Char → Option (List Char × List Char)
  | [] => none
  | c :: rest =>
    if c = '"' then some ([], rest)
    else if c = '\\' then
      match rest with
      | [] => none
      | d :: rest2 =>
        if d = '"' ∨ d = '\\' then
          (parseStrBody rest2).map fun p => (d :: p.1, p.2)
        else none
    else (parseStrBody rest).map fun p => (c :: p.1, p.2)

/-- Parse a JSON string token after optional whitespace. -/
def parseStr (l : List Char) : Option (List Char × List Char) :=
  match skipWs l with
  | c :: rest => if c = '"' then parseStrBody rest else none
  | [] => none

/-- Expect one punctuation character after optional whitespace. -/
def expectCh (c : Char) (l : List Char) : Option (List Char) :=
  match skipWs l with
  | d :: rest => if d = c then some rest else none
  | [] => none

/-- Parse `"key": "value"` and return the value when the key matches. -/
def parseField (key : String) (l : List Char) : Option (String × List Char) := do
  let (k, r1) ← parseStr l
  if k = key.data then
    let r2 ← expectCh ':' r1
    let (v, r3) ← parseStr r2
    some (⟨v⟩, r3)
  else none

/-- Parse one page object with its five fields in canonical order. -/
def parsePage (l : List Char) : Option (PageInfo × List Char) := do
  let r0 ← expectCh '{' l
  let (b, r1) ← parseField "base" r0
  let r1b ← expectCh ',' r1
  let (h, r2) ← parseField "html" r1b
  let r2b ← expectCh ',' r2
  let (md, r3) ← parseField "markdown" r2b
  let r3b ← expectCh ',' r3
  let (n, r4) ← parseField "name" r3b
  let r4b ← expectCh ',' r4
  let (d, r5) ← parseField "description" r4b
  let r6 ← expectCh '}' r5
  some ({ base := b, html := h, markdown := md, name := n, description := d }, r6)

/-- Parse the top-level items of a site-map document after the opening
brace; the fuel bounds the number of items. -/
def parseItems : Nat → SiteMap → List Char → Option (SiteMap × List Char)
  | 0, _, _ => none
  | fuel + 1, acc, l => do
    let (k, r1) ← parseStr l
    let r2 ← expectCh ':' r1
    let (v, r3) ← parsePage r2
    match skipWs r3 with
    | [] => none
    | c :: r4 =>
      if c = ',' then parseItems fuel (acc ++ [(⟨k⟩, v)]) r4
      else if c = '}' then some (acc ++ [(⟨k⟩, v)], r4)
      else none

/-- Model of json.load for site-map documents: none models a
JSONDecodeError; trailing content after the document is rejected. -/
def parseSiteMap (s : String) : Option SiteMap :=
  match expectCh '{' s.data with
  | none => none
  | some rest =>
    match skipWs rest with
    | [] => none
    | c :: r2 =>
      if c = '}' then (if skipWs r2 = [] then some [] else none)
      else
        match parseItems (s.data.length + 1) [] rest with
        | some (m, r) => if skipWs r = [] then some m else none
        | none => none

/-- Embedding of `load_site_map` (server.py): read site_map.json and
parse it, returning the empty mapping when the file is missing
(FileNotFoundError) or malformed (JSONDecodeError). -/
def load_site_map (fs : FileSys) : SiteMap :=
  match fs "site_map.json" with
  | none => []
  | some text =>
    match parseSiteMap text with
    | none => []
    | some m => m

/-- Printable ASCII: exactly the characters that json.dump with the
default ensure_ascii setting writes as themselves (aside from quote and
backslash, which it escapes as the model does). -/
def asciiOk (s : String) : Prop := ∀ c ∈ s.data, 32 ≤ c.toNat ∧ c.toNat ≤ 126

/-- Well-formed site map: distinct keys (it is a dict) and printable
ASCII key and field strings. -/
def WellFormedSiteMap (m : SiteMap) : Prop :=
  (m.map Prod.fst).Nodup ∧
  ∀ kv ∈ m, asciiOk kv.1 ∧ asciiOk kv.2.base ∧ asciiOk kv.2.html ∧
    asciiOk kv.2.markdown ∧ asciiOk kv.2.name ∧ asciiOk kv.2.description

/-- File system whose only file is a given site_map.json text. -/
def fsWith (text : String) : FileSys :=
  fun p => if p = "site_map.json" then some text else none

/-- Empty file system: every read fails. -/
def fsNone : FileSys := fun _ => none

/-! ## Crawl loop (download.py, WebsiteCrawler.crawl)

The fetch pipeline — requests.get, BeautifulSoup parsing and
extract_page_info — is collapsed into one abstract collaborator that
maps a path to the extracted title, description and href attributes of
the page, or to none on a fetch failure.  The Markdown converter is an
abstract success predicate. -/

/-- Fetched page after parsing and metadata extraction. -/
structure PageData where
  title : String
  description : String
  hrefs : List HRef

/-- Abstract web: the fetch result for each path. -/
def Web : Type := String → Option PageData

/-- Crawler state: the pending FIFO queue, the visited set (a Python
set, modelled as a duplicate-free list) and the site map being built. -/
structure CrawlState where
  to_visit : List String
  visited : List String
  site_map : SiteMap

/-- Python dict assignment `site_map[key] = entry`: overwrite in place
or append at the end. -/
def insertEntry (m : SiteMap) (k : String) (v : PageInfo) : SiteMap :=
  if (m.map Prod.fst).contains k then
    m.map fun kv => if kv.1 = k then (k, v) else kv
  else m ++ [(k, v)]

/-- Loop body of a visit whose fetch succeeded: build the file paths
and the site-map record, and enqueue the surviving links.  Mirrors
steps 5 to 8 of the crawl iteration in download.py. -/
def visitPage (base : Url) (mdOk : String → Bool) (current : String)
    (page : PageData) (rest visited : List String) (sm : SiteMap) : CrawlState :=
  let base_path := get_normalized_path current
  let entry : PageInfo :=
    { base := base_path
      html := "./html/" ++ base_path ++ ".html"
      markdown := if mdOk current then "./markdown/" ++ base_path ++ ".md" else ""
      name := page.title
      description := page.description }
  { to_visit := rest ++ extract_links base (current :: visited) rest page.hrefs
    visited := current :: visited
    site_map := insertEntry sm base_path entry }

/-- Embedding of `WebsiteCrawler.crawl` (download.py): pop the head of
to_visit; skip it when already visited; mark it visited; fetch it — a
failed fetch leaves no site-map entry — otherwise record the page and
append its surviving links; the loop ends when to_visit is empty.  The
fuel only bounds the number of iterations: with enough fuel the loop
reaches the empty queue. -/
def crawl_loop (base : Url) (web : Web) (mdOk : String → Bool) :
    Nat → CrawlState → CrawlState
  | 0, s => s
  | fuel + 1, s =>
    match s.to_visit with
    | [] => s
    | current :: rest =>
      if current ∈ s.visited then
        crawl_loop base web mdOk fuel { s with to_visit := rest }
      else
        match web current with
        | none =>
          crawl_loop base web mdOk fuel
            { to_visit := rest, visited := current :: s.visited,
              site_map := s.site_map }
        | some page =>
          crawl_loop base web mdOk fuel
            (visitPage base mdOk current page rest s.visited s.site_map)

/-- Initial crawler state of WebsiteCrawler: to_visit = ["/"]. -/
def initState : CrawlState := { to_visit := ["/"], visited := [], site_map := [] }

/-- Same-domain out-edges of a page: the path components extract_links
considers before the frontier filter. -/
def pagePaths (base : Url) (hrefs : List HRef) : List String :=
  hrefs.filterMap fun href =>
    if pyStartswith (urlString (urljoin base href)) (urlString base) then
      some (urljoin base href).path
    else none

/-- Link graph induced by the web: the same-domain path components of a
page, or nothing when the fetch fails. -/
def outPaths (base : Url) (web : Web) (p : String) : List String :=
  match web p with
  | none => []
  | some page => pagePaths base page.hrefs

/-- Reachability in the induced link graph. -/
inductive Reach (base : Url) (web : Web) : String → String → Prop
  | refl (p : String) : Reach base web p p
  | step {p q r : String} : Reach base web p q → r ∈ outPaths base web q →
      Reach base web p r

/-- Upper bound on the out-degree over the page universe. -/
def maxLinks (base : Url) (web : Web) (P : List String) : Nat :=
  (P.map fun p => (outPaths base web p).length).foldr Nat.max 0

/-- Crawl measure: unvisited pages of P weighted by the largest queue
growth one visit can cause, plus the queue length.  Every loop
iteration strictly decreases it. -/
def crawlMeasure (base : Url) (web : Web) (P : List String) (s : CrawlState) : Nat :=
  (P.filter fun p => p ∉ s.visited).length * (1 + maxLinks base web P) +
    s.to_visit.length

/-- Crawl invariant over the page universe P: the frontier stays inside
P, visited paths are never duplicated, every same-domain out-edge of a
visited page is already visited or queued, and the root is accounted
for. -/
def CrawlInv (base : Url) (web : Web) (P : List String) (s : CrawlState) : Prop :=
  (∀ p ∈ s.to_visit, p ∈ P) ∧
  (∀ p ∈ s.visited, p ∈ P) ∧
  s.visited.Nodup ∧
  (∀ p ∈ s.visited, ∀ q ∈ outPaths base web p, q ≠ "" →
    q ∈ s.visited ∨ q ∈ s.to_visit) ∧
  ("/" ∈ s.visited ∨ "/" ∈ s.to_visit)

/-- Concrete two-page strongly connected web used as a witness. -/
def webTwo : Web := fun p =>
  if p = "/" then some ⟨"Home", "home page", [HRef.relative "/a"]⟩
  else if p = "/a" then some ⟨"A", "a page", [HRef.relative "/"]⟩
  else none

/-- Page universe of webTwo. -/
def pTwo : List String := ["/", "/a"]

/-- Markdown conversion that always succeeds. -/
def mdOkAll : String → Bool := fun _ => true

/-! # Theorems -/

/-! ## dropWhile helpers -/

/-- C6 helper: normalization fixes the two root spellings. -/
theorem normListPath_root : normListPath "/".data = "index".data ∧
    normListPath "".data = "index".data := by
  constructor <;> decide

/-! ### Stability of the urlparse path extraction on plain identifiers -/

theorem search_fold_eq (q : String) (m : SiteMap) (acc : List SearchResult) :
    m.foldl (fun results kv =>
      if pyIn q (pyLower kv.2.name) || pyIn q (pyLower kv.2.description) then
        results ++ [{ page_id := kv.1, title := kv.2.name, description := kv.2.description,
                      relevance := if pyIn q (pyLower kv.2.name) then "high" else "medium" }]
      else results) acc = acc ++ m.filterMap (searchRow q) := by
  induction m generalizing acc with
  | nil => simp
  | cons kv rest ih =>
    rw [List.foldl_cons, List.filterMap_cons, ih]
    by_cases hc : (pyIn q (pyLower kv.2.name) || pyIn q (pyLower kv.2.description)) = true
    · rw [if_pos hc, searchRow, if_pos hc, List.append_assoc, List.singleton_append]
    · rw [if_neg hc, searchRow, if_neg hc]

theorem insertStable_front {α : Type} (k : α → Nat) (x : α) (l : List α)
    (h : ∀ y ∈ l, k x ≤ k y) : insertStable k x l = x :: l := by
  cases l with
  | nil => rfl
  | cons y ys =>
    rw [insertStable, if_pos (h y (List.mem_cons_self _ _))]

theorem insertStable_skip {α : Type} (k : α → Nat) (x : α) (A B : List α)
    (h : ∀ y ∈ A, ¬ k x ≤ k y) : insertStable k x (A ++ B) = A ++ insertStable k x B := by
  induction A with
  | nil => rfl
  | cons a as ih =>
    rw [List.cons_append, insertStable, if_neg (h a (List.mem_cons_self _ _)),
      ih fun y hy => h y (List.mem_cons_of_mem _ hy), List.cons_append]

theorem sortStable_binary {α : Type} (k : α → Nat) (hk : ∀ x, k x ≤ 1) (l : List α) :
    sortStable k l =
      l.filter (fun x => k x == 0) ++ l.filter (fun x => !(k x == 0)) := by
  induction l with
  | nil => rfl
  | cons x xs ih =>
    rw [sortStable, ih, List.filter_cons, List.filter_cons]
    by_cases hx : k x = 0
    · rw [insertStable_front k x _ fun y _ => hx ▸ Nat.zero_le _]
      simp [hx]
    · have hx1 : k x = 1 := Nat.le_antisymm (hk x) (Nat.one_le_iff_ne_zero.mpr hx)
      rw [insertStable_skip k x _ _ ?hskip, insertStable_front k x _ ?hfront]
      · simp [hx]
      case hskip =>
        intro y hy
        have hy0 : k y = 0 := by
          have := (List.mem_filter.mp hy).2
          simpa using this
        rw [hx1, hy0]
        decide
      case hfront =>
        intro y hy
        have hy0 : ¬ k y = 0 := by
          have := (List.mem_filter.mp hy).2
          simpa using this
        rw [hx1]
        exact Nat.one_le_iff_ne_zero.mpr hy0

theorem searchKey_le_one (r : SearchResult) : searchKey r ≤ 1 := by
  rw [searchKey]
  by_cases h : r.relevance = "high"
  · rw [if_pos h]; decide
  · rw [if_neg h]

theorem filterMap_searchRow_high (q : String) (m : SiteMap) :
    (m.filterMap (searchRow q)).filter (fun r => searchKey r == 0) =
      m.filterMap fun kv =>
        if pyIn q (pyLower kv.2.name) then
          some ⟨kv.1, kv.2.name, kv.2.description, "high"⟩
        else none := by
  induction m with
  | nil => rfl
  | cons kv rest ih =>
    rw [List.filterMap_cons, List.filterMap_cons, searchRow]
    by_cases h1 : pyIn q (pyLower kv.2.name) = true
    · rw [if_pos (by simp [h1]), if_pos h1, if_pos h1, List.filter_cons]
      have : searchKey ⟨kv.1, kv.2.name, kv.2.description, "high"⟩ = 0 := rfl
      simp only [this]
      rw [ih]
      simp
    · by_cases h2 : pyIn q (pyLower kv.2.description) = true
      · rw [if_pos (by simp [h1, h2]), if_neg h1, if_neg h1, List.filter_cons]
        have : searchKey ⟨kv.1, kv.2.name, kv.2.description, "medium"⟩ = 1 := rfl
        simp only [this]
        rw [ih]
        simp
      · rw [if_neg (by simp [h1, h2]), if_neg h1, ih]

theorem filterMap_searchRow_medium (q : String) (m : SiteMap) :
    (m.filterMap (searchRow q)).filter (fun r => !(searchKey r == 0)) =
      m.filterMap fun kv =>
        if !pyIn q (pyLower kv.2.name) && pyIn q (pyLower kv.2.description) then
          some ⟨kv.1, kv.2.name, kv.2.description, "medium"⟩
        else none := by
  induction m with
  | nil => rfl
  | cons kv rest ih =>
    rw [List.filterMap_cons, List.filterMap_cons, searchRow]
    by_cases h1 : pyIn q (pyLower kv.2.name) = true
    · rw [if_pos (by simp [h1]), if_pos h1, if_neg (by simp [h1]), List.filter_cons]
      have : searchKey ⟨kv.1, kv.2.name, kv.2.description, "high"⟩ = 0 := rfl
      simp only [this]
      rw [ih]
      simp
    · by_cases h2 : pyIn q (pyLower kv.2.description) = true
      · rw [if_pos (by simp [h1, h2]), if_neg h1, if_pos (by simp [h1, h2]), List.filter_cons]
        have : searchKey ⟨kv.1, kv.2.name, kv.2.description, "medium"⟩ = 1 := rfl
        simp only [this]
        rw [ih]
        simp
      · rw [if_neg (by simp [h1, h2]), if_neg (by simp [h1, h2]), ih]

/-- Search returns exactly the high tier followed by the medium tier. -/
theorem search_pages_eq_tiers (m : SiteMap) (q : String) :
    search_pages m q = searchHighTier m q ++ searchMediumTier m q := by
  rw [search_pages]
  show sortStable searchKey (m.foldl _ []) = _
  rw [search_fold_eq, List.nil_append,
    sortStable_binary searchKey searchKey_le_one,
    filterMap_searchRow_high, filterMap_searchRow_medium]
  rfl

/-- C1: search_pages performs a case-insensitive substring match of the
query against title and description of every site-map entry, tags a
title match "high" and a description-only match "medium", and returns
all high results before all medium results, preserving site-map order
inside each tier. -/
theorem search_pages_tiered (m : SiteMap) (q : String) :
    search_pages m q = searchHighTier m q ++ searchMediumTier m q :=
  search_pages_eq_tiers m q

theorem infixCheck_nil (l : List Char) : infixCheck [] l = true := by
  cases l <;> simp [infixCheck, List.isPrefixOf]

theorem pyIn_lower_empty (s : String) : pyIn (pyLower "") s = true := by
  have h : pyLower "" = "" := rfl
  rw [h, pyIn]
  exact infixCheck_nil s.data

theorem highTier_empty (m : SiteMap) :
    searchHighTier m "" = m.map fun kv =>
      ({ page_id := kv.1, title := kv.2.name, description := kv.2.description,
         relevance := "high" } : SearchResult) := by
  rw [searchHighTier]
  induction m with
  | nil => rfl
  | cons kv rest ih =>
    rw [List.filterMap_cons, if_pos (pyIn_lower_empty _), List.map_cons, ih]

theorem medTier_empty (m : SiteMap) : searchMediumTier m "" = [] := by
  rw [searchMediumTier]
  induction m with
  | nil => rfl
  | cons kv rest ih =>
    rw [List.filterMap_cons, if_neg (by rw [pyIn_lower_empty]; simp), ih]

/-- C10: searching with the empty query returns every page of the site
map, in site-map order, each tagged with relevance "high", because the
empty string is a substring of every (lowered) title. -/
theorem search_pages_empty_query (m : SiteMap) :
    search_pages m "" = m.map fun kv =>
      ({ page_id := kv.1, title := kv.2.name, description := kv.2.description,
         relevance := "high" } : SearchResult) := by
  rw [search_pages_eq_tiers, highTier_empty, medTier_empty, List.append_nil]

/-! ## Content retrieval (C2) -/

/-- C2: get_page_content fails exactly when the page id is absent from
the site map, or the markdown path of its record is empty, or the
markdown file cannot be read; otherwise it returns the text of the
markdown file. -/
theorem get_page_content_spec (fs : FileSys) (m : SiteMap) (pid : String) :
    ((∃ e, get_page_content fs m pid = Except.error e) ↔
      (lookupPage m pid = none ∨
        ∃ info, lookupPage m pid = some info ∧
          (info.markdown = "" ∨ read_file fs info.markdown = none))) ∧
    (∀ info content, lookupPage m pid = some info → info.markdown ≠ "" →
      read_file fs info.markdown = some content →
      get_page_content fs m pid = Except.ok content) := by
  cases hl : lookupPage m pid with
  | none => simp [get_page_content, hl]
  | some info =>
    by_cases hmd : info.markdown = ""
    · refine ⟨by simp [get_page_content, hl, hmd], ?_⟩
      intro info1 content h1 h2 h3
      obtain rfl := Option.some_inj.mp h1
      exact absurd hmd h2
    · cases hr : read_file fs info.markdown with
      | none =>
        refine ⟨by simp [get_page_content, hl, hmd, hr], ?_⟩
        intro info1 content h1 h2 h3
        obtain rfl := Option.some_inj.mp h1
        rw [hr] at h3
        cases h3
      | some c =>
        refine ⟨by simp [get_page_content, hl, hmd, hr], ?_⟩
        intro info1 content h1 h2 h3
        obtain rfl := Option.some_inj.mp h1
        rw [hr, Option.some_inj] at h3
        subst h3
        simp [get_page_content, hl, hmd, hr]

/-- C2 witness: on a concrete site map and file system, the hypotheses of
the success branch hold and the content is returned. -/
theorem get_page_content_spec_witness :
    get_page_content fsAbout mapAbout "about" = Except.ok "hello" :=
  (get_page_content_spec fsAbout mapAbout "about").2
    { base := "about", html := "./html/about.html",
      markdown := "./markdown/about.md", name := "About",
      description := "About the site" } "hello"
    (by decide) (by decide) (by decide)

/-! ## Link extraction (C3, C4, C5) -/

/-- C3 (code-bug evidence): with the default base URL, a link whose host
is mikecreighton.com.evil.example — a different host than the base
origin — passes the startswith filter of extract_links and is kept, so
the same-domain filter is a string-prefix test, not an origin-equality
test. -/
theorem extract_links_keeps_foreign_host :
    (Url.mk "https" "mikecreighton.com.evil.example" "/x").host ≠ baseUrl.host ∧
    extract_links baseUrl [] []
      [HRef.absolute (Url.mk "https" "mikecreighton.com.evil.example" "/x")] = ["/x"] := by
  constructor
  · decide
  · decide

/-- C4 (code-bug evidence): the normalizer passes ".." segments through
unchanged: the URL path "/../evil" — reachable, since urljoin keeps the
dot segments of an absolute href such as
https://mikecreighton.com/../evil, which also passes the same-domain
filter — yields the identifier "../evil", and the derived file locations
html/../evil.html and markdown/../evil.md lie outside the html and
markdown output directories. -/
theorem get_normalized_path_traversal :
    get_normalized_path "/../evil" = "../evil" ∧
    (get_file_paths "/../evil").1 = "html/../evil.html" ∧
    hasDotDotSeg (get_file_paths "/../evil").1 = true ∧
    hasDotDotSeg (get_file_paths "/../evil").2.2 = true ∧
    extract_links baseUrl [] []
      [HRef.absolute (Url.mk "https" "mikecreighton.com" "/../evil")] = ["/../evil"] := by
  refine ⟨by decide, by decide, by decide, by decide, by decide⟩

theorem links_fold_eq (base_url : Url) (visited to_visit : List String)
    (hrefs : List HRef) (acc : List String) :
    hrefs.foldl (fun links href =>
      if pyStartswith (urlString (urljoin base_url href)) (urlString base_url) then
        if (urljoin base_url href).path ≠ "" ∧ (urljoin base_url href).path ∉ visited ∧
            (urljoin base_url href).path ∉ to_visit then
          links ++ [(urljoin base_url href).path]
        else links
      else links) acc = acc ++ hrefs.filterMap (linkRow base_url visited to_visit) := by
  induction hrefs generalizing acc with
  | nil => simp
  | cons href rest ih =>
    rw [List.foldl_cons, List.filterMap_cons, ih, linkRow]
    by_cases h1 : pyStartswith (urlString (urljoin base_url href)) (urlString base_url) = true
    · by_cases h2 : (urljoin base_url href).path ≠ "" ∧
          (urljoin base_url href).path ∉ visited ∧ (urljoin base_url href).path ∉ to_visit
      · rw [if_pos h1, if_pos h2, if_pos (And.intro h1 h2),
          List.append_assoc, List.singleton_append]
      · rw [if_pos h1, if_neg h2, if_neg fun hc : _ ∧ _ => h2 hc.2]
    · rw [if_neg h1, if_neg fun hc : _ ∧ _ => h1 hc.1]

/-- C5 (amended): every path returned by extract_links is the raw path
component of the resolved URL (not normalized); it is non-empty, not in
visited and not in to_visit as they were at call time; and the returned
sequence lists the surviving paths in the order their hrefs occur on the
page (an eligible path occurring twice is contributed twice). -/
theorem extract_links_spec (base_url : Url) (visited to_visit : List String)
    (hrefs : List HRef) :
    extract_links base_url visited to_visit hrefs =
      hrefs.filterMap (linkRow base_url visited to_visit) ∧
    ∀ p ∈ extract_links base_url visited to_visit hrefs,
      p ≠ "" ∧ p ∉ visited ∧ p ∉ to_visit := by
  have heq : extract_links base_url visited to_visit hrefs =
      hrefs.filterMap (linkRow base_url visited to_visit) := by
    rw [extract_links]
    exact links_fold_eq base_url visited to_visit hrefs []
  refine ⟨heq, ?_⟩
  intro p hp
  rw [heq] at hp
  obtain ⟨href, _, hrow⟩ := List.mem_filterMap.mp hp
  rw [linkRow] at hrow
  by_cases hc : pyStartswith (urlString (urljoin base_url href)) (urlString base_url) ∧
      (urljoin base_url href).path ≠ "" ∧ (urljoin base_url href).path ∉ visited ∧
      (urljoin base_url href).path ∉ to_visit
  · rw [if_pos hc] at hrow
    obtain rfl : (urljoin base_url href).path = p := Option.some_inj.mp hrow
    exact hc.2
  · rw [if_neg hc] at hrow
    cases hrow

/-- C5 witness: the amended theorem applied at a concrete call. -/
theorem extract_links_spec_witness :
    ("/about" : String) ≠ "" ∧ "/about" ∉ ([] : List String) ∧
      "/about" ∉ (["/x"] : List String) :=
  (extract_links_spec baseUrl [] ["/x"] [HRef.relative "/about"]).2 "/about" (by decide)

/-- C5 counterexample: extract_links returns the raw path component
"/about", which is not equal to its own normalization "about", so the
returned paths are not normalized identifiers. -/
theorem extract_links_returns_unnormalized :
    extract_links baseUrl [] [] [HRef.relative "/about"] = ["/about"] ∧
    get_normalized_path "/about" ≠ "/about" := by
  constructor
  · decide
  · decide

/-! ## Site map store: parsing the printed document (C7, C8) -/

theorem skipWs_cons_ws {c : Char} (h : isWs c = true) (l : List Char) :
    skipWs (c :: l) = skipWs l := by
  simp [skipWs, List.dropWhile_cons, h]

theorem skipWs_cons_not {c : Char} (h : isWs c = false) (l : List Char) :
    skipWs (c :: l) = c :: l := by
  simp [skipWs, List.dropWhile_cons, h]

theorem skipWs_nl (l : List Char) : skipWs ('\n' :: l) = skipWs l :=
  skipWs_cons_ws (by decide) l

theorem skipWs_sp (l : List Char) : skipWs (' ' :: l) = skipWs l :=
  skipWs_cons_ws (by decide) l

theorem skipWs_spc (n : Nat) (l : List Char) : skipWs (spc n ++ l) = skipWs l := by
  induction n with
  | zero => rfl
  | succ k ih =>
    show skipWs (List.replicate (k + 1) ' ' ++ l) = skipWs l
    rw [List.replicate_succ, List.cons_append, skipWs_sp]
    exact ih

theorem parseStr_congr {l₁ l₂ : List Char} (h : skipWs l₁ = skipWs l₂) :
    parseStr l₁ = parseStr l₂ := by
  rw [parseStr, parseStr, h]

theorem expectCh_congr (c : Char) {l₁ l₂ : List Char} (h : skipWs l₁ = skipWs l₂) :
    expectCh c l₁ = expectCh c l₂ := by
  rw [expectCh, expectCh, h]

theorem parseField_congr (key : String) {l₁ l₂ : List Char}
    (h : skipWs l₁ = skipWs l₂) : parseField key l₁ = parseField key l₂ := by
  rw [parseField, parseField, parseStr_congr h]

theorem parsePage_congr {l₁ l₂ : List Char} (h : skipWs l₁ = skipWs l₂) :
    parsePage l₁ = parsePage l₂ := by
  rw [parsePage, parsePage, expectCh_congr '{' h]

theorem parseStrBody_quote (rest : List Char) :
    parseStrBody ('"' :: rest) = some ([], rest) := by
  conv_lhs => rw [parseStrBody.eq_def]
  rfl

theorem parseStrBody_esc {d : Char} (hd : d = '"' ∨ d = '\\') (rest : List Char) :
    parseStrBody ('\\' :: d :: rest) =
      (parseStrBody rest).map fun p => (d :: p.1, p.2) := by
  conv_lhs => rw [parseStrBody.eq_def]
  show (if d = '"' ∨ d = '\\' then (parseStrBody rest).map fun p => (d :: p.1, p.2)
    else none) = (parseStrBody rest).map fun p => (d :: p.1, p.2)
  rw [if_pos hd]

theorem parseStrBody_raw {c : Char} (h1 : ¬c = '"') (h2 : ¬c = '\\') (rest : List Char) :
    parseStrBody (c :: rest) = (parseStrBody rest).map fun p => (c :: p.1, p.2) := by
  conv_lhs => rw [parseStrBody.eq_def]
  show (if c = '"' then some (([] : List Char), rest)
    else if c = '\\' then
      match rest with
      | [] => none
      | d :: rest2 =>
        if d = '"' ∨ d = '\\' then (parseStrBody rest2).map fun p => (d :: p.1, p.2)
        else none
    else (parseStrBody rest).map fun p => (c :: p.1, p.2)) =
    (parseStrBody rest).map fun p => (c :: p.1, p.2)
  rw [if_neg h1, if_neg h2]

theorem parseStrBody_print (s : List Char) (rest : List Char) :
    parseStrBody ((s.map quoteChar).flatten ++ '"' :: rest) = some (s, rest) := by
  induction s with
  | nil =>
    rw [List.map_nil, List.flatten_nil, List.nil_append, parseStrBody_quote]
  | cons c cs ih =>
    rw [List.map_cons, List.flatten_cons, List.append_assoc]
    by_cases hc : c = '"' ∨ c = '\\'
    · rw [quoteChar, if_pos hc]
      show parseStrBody ('\\' :: c :: ((cs.map quoteChar).flatten ++ '"' :: rest)) = _
      rw [parseStrBody_esc hc, ih]
      rfl
    · rw [quoteChar, if_neg hc]
      push_neg at hc
      show parseStrBody (c :: ((cs.map quoteChar).flatten ++ '"' :: rest)) = _
      rw [parseStrBody_raw hc.1 hc.2, ih]
      rfl

theorem parseStr_quote (l : List Char) : parseStr ('"' :: l) = parseStrBody l := by
  rw [parseStr, skipWs_cons_not (by decide)]
  show (if ('"' : Char) = '"' then parseStrBody l else none) = parseStrBody l
  rw [if_pos rfl]

theorem parseStr_print (s : String) (rest : List Char) :
    parseStr (printStrL s ++ rest) = some (s.data, rest) := by
  have h : printStrL s ++ rest = '"' :: ((s.data.map quoteChar).flatten ++ '"' :: rest) := by
    rw [printStrL]
    simp
  rw [h, parseStr_quote, parseStrBody_print]

theorem expectCh_any {c : Char} (hws : isWs c = false) (l : List Char) :
    expectCh c (c :: l) = some l := by
  rw [expectCh, skipWs_cons_not hws]
  show (if c = c then some l else none) = some l
  rw [if_pos rfl]

theorem expectCh_lbrace (l : List Char) : expectCh '{' ('{' :: l) = some l :=
  expectCh_any (by decide) l

theorem expectCh_colon (l : List Char) : expectCh ':' (':' :: l) = some l :=
  expectCh_any (by decide) l

theorem expectCh_comma (l : List Char) : expectCh ',' (',' :: l) = some l :=
  expectCh_any (by decide) l

theorem expectCh_rbrace (l : List Char) : expectCh '}' ('}' :: l) = some l :=
  expectCh_any (by decide) l

theorem parseStr_sp (l : List Char) : parseStr (' ' :: l) = parseStr l :=
  parseStr_congr (skipWs_sp l)

theorem mk_data (s : String) : String.mk s.data = s := rfl

theorem parseField_print (key value : String) (tail : List Char) :
    parseField key (printFieldR key value tail) = some (value, tail) := by
  rw [printFieldR, parseField, parseStr_print]
  show (if key.data = key.data then (do
    let r2 ← expectCh ':' (':' :: ' ' :: (printStrL value ++ tail))
    let (v, r3) ← parseStr r2
    some (⟨v⟩, r3) : Option (String × List Char)) else none) = some (value, tail)
  rw [if_pos rfl, expectCh_colon]
  show (do
    let (v, r3) ← parseStr (' ' :: (printStrL value ++ tail))
    some ((⟨v⟩ : String), r3) : Option (String × List Char)) = some (value, tail)
  rw [parseStr_sp, parseStr_print]
  rfl

theorem parseField_nl_line4 (key value : String) (tail : List Char) :
    parseField key ('\n' :: printLine4 key value tail) = some (value, tail) := by
  have h : skipWs ('\n' :: printLine4 key value tail) =
      skipWs (printFieldR key value tail) := by
    rw [printLine4, skipWs_nl, skipWs_spc]
  rw [parseField_congr key h]
  exact parseField_print key value tail

theorem expectCh_rbrace_ws (tail : List Char) :
    expectCh '}' ('\n' :: (spc 2 ++ '}' :: tail)) = some tail := by
  rw [expectCh_congr '}'
    (show skipWs ('\n' :: (spc 2 ++ '}' :: tail)) = skipWs ('}' :: tail) by
      rw [skipWs_nl, skipWs_spc])]
  exact expectCh_rbrace tail

theorem parsePage_printR (v : PageInfo) (tail : List Char) :
    parsePage (printPageR v tail) = some (v, tail) := by
  simp only [printPageR, parsePage, expectCh_lbrace, parseField_nl_line4,
    expectCh_comma, expectCh_rbrace_ws, Option.bind_eq_bind, Option.some_bind]

theorem parseStr_nl_item (kv : String × PageInfo) (T : List Char) :
    parseStr ('\n' :: printItemR kv T) =
      some (kv.1.data, ':' :: ' ' :: printPageR kv.2 T) := by
  have h : skipWs ('\n' :: printItemR kv T) =
      skipWs (printStrL kv.1 ++ (':' :: ' ' :: printPageR kv.2 T)) := by
    rw [printItemR, skipWs_nl, skipWs_spc]
  rw [parseStr_congr h, parseStr_print]

theorem parsePage_sp_print (v : PageInfo) (T : List Char) :
    parsePage (' ' :: printPageR v T) = some (v, T) := by
  rw [parsePage_congr (skipWs_sp _), parsePage_printR]

theorem skipWs_comma (l : List Char) : skipWs (',' :: l) = ',' :: l :=
  skipWs_cons_not (by decide) l

theorem skipWs_nl_rbrace (tail : List Char) :
    skipWs ('\n' :: '}' :: tail) = '}' :: tail := by
  rw [skipWs_nl, skipWs_cons_not (by decide)]

theorem parseItems_print (m : SiteMap) (tail : List Char) :
    ∀ (fuel : Nat) (acc : SiteMap), m ≠ [] → m.length ≤ fuel →
      parseItems fuel acc ('\n' :: printItemsR m ('\n' :: '}' :: tail)) =
        some (acc ++ m, tail) := by
  induction m with
  | nil => intro fuel acc hm _; exact absurd rfl hm
  | cons kv m' ih =>
    intro fuel acc _ hf
    cases fuel with
    | zero => simp at hf
    | succ f =>
      cases m' with
      | nil =>
        simp only [printItemsR, parseItems, parseStr_nl_item, expectCh_colon,
          parsePage_sp_print, skipWs_nl_rbrace, Option.bind_eq_bind, Option.some_bind,
          mk_data, Prod.mk.eta]
        simp
      | cons kv2 m'' =>
        have hf2 : (kv2 :: m'').length ≤ f := by
          simp only [List.length_cons] at hf ⊢
          omega
        simp only [printItemsR, parseItems, parseStr_nl_item, expectCh_colon,
          parsePage_sp_print, skipWs_comma, Option.bind_eq_bind, Option.some_bind,
          mk_data, Prod.mk.eta, if_true]
        rw [ih f (acc ++ [kv]) (List.cons_ne_nil _ _) hf2]
        simp

theorem len_ge_page (v : PageInfo) (X : List Char) :
    X.length + 1 ≤ (printPageR v X).length := by
  simp [printPageR, printLine4, printFieldR, printStrL, spc,
    List.length_append, List.length_cons]
  omega

theorem len_ge_item (kv : String × PageInfo) (X : List Char) :
    X.length + 1 ≤ (printItemR kv X).length := by
  have h := len_ge_page kv.2 X
  simp [printItemR, printStrL, spc, List.length_append, List.length_cons]
  omega

theorem len_ge_items (m : SiteMap) (T : List Char) :
    m.length + T.length ≤ (printItemsR m T).length := by
  induction m with
  | nil => simp [printItemsR]
  | cons kv m' ih =>
    cases m' with
    | nil =>
      have h := len_ge_item kv T
      simp only [printItemsR, List.length_cons, List.length_nil]
      omega
    | cons kv2 m'' =>
      have h1 := len_ge_item kv (',' :: '\n' :: printItemsR (kv2 :: m'') T)
      simp only [printItemsR, List.length_cons] at h1 ih ⊢
      omega

theorem skipWs_nl_itemR (kv : String × PageInfo) (T : List Char) :
    ∃ Y, skipWs ('\n' :: printItemR kv T) = '"' :: Y := by
  have h : skipWs ('\n' :: printItemR kv T) =
      '"' :: (((kv.1.data.map quoteChar).flatten ++ ['"']) ++
        (':' :: ' ' :: printPageR kv.2 T)) := by
    rw [printItemR, skipWs_nl, skipWs_spc, printStrL, List.cons_append,
      skipWs_cons_not (by decide)]
  exact ⟨_, h⟩

theorem printItemsR_head (kv : String × PageInfo) (m' : SiteMap) (T : List Char) :
    ∃ T2, printItemsR (kv :: m') T = printItemR kv T2 := by
  cases m' with
  | nil => exact ⟨T, rfl⟩
  | cons kv2 m'' => exact ⟨',' :: '\n' :: printItemsR (kv2 :: m'') T, rfl⟩

/-- Parsing the printed site map recovers it exactly. -/
theorem parseSiteMap_save (m : SiteMap) : parseSiteMap (save_site_map m) = some m := by
  cases m with
  | nil => decide
  | cons kv m' =>
    obtain ⟨T2, hT2⟩ := printItemsR_head kv m' ('\n' :: ['}'])
    obtain ⟨Y, hY⟩ := skipWs_nl_itemR kv T2
    have hdata : (save_site_map (kv :: m')).data =
        '{' :: '\n' :: printItemsR (kv :: m') ('\n' :: ['}']) := rfl
    simp only [parseSiteMap, hdata, expectCh_lbrace, hT2, hY]
    rw [if_neg (by decide : ¬('"' : Char) = '}')]
    rw [← hT2]
    have hlen3 : (kv :: m').length ≤
        ('{' :: '\n' :: printItemsR (kv :: m') ('\n' :: ['}'])).length + 1 := by
      have h := len_ge_items (kv :: m') ('\n' :: ['}'])
      simp only [List.length_cons] at h ⊢
      omega
    rw [parseItems_print (kv :: m') [] _ [] (List.cons_ne_nil _ _) hlen3]
    simp [skipWs]

/-- C7: load_site_map returns the empty mapping — not an error — both
when the site-map file is missing and when its content fails to parse
as a JSON site map. -/
theorem load_site_map_missing_or_malformed (fs : FileSys) :
    (fs "site_map.json" = none → load_site_map fs = []) ∧
    (∀ text, fs "site_map.json" = some text → parseSiteMap text = none →
      load_site_map fs = []) := by
  constructor
  · intro h
    rw [load_site_map, h]
  · intro t h hp
    rw [load_site_map, h]
    show (match parseSiteMap t with
      | none => ([] : SiteMap)
      | some m => m) = []
    rw [hp]

/-- C7 witness: a file system with no site_map.json, and one whose
site_map.json holds the malformed text "not json". -/
theorem load_site_map_missing_or_malformed_witness :
    load_site_map fsNone = [] ∧ load_site_map (fsWith "not json") = [] :=
  ⟨(load_site_map_missing_or_malformed fsNone).1 rfl,
   (load_site_map_missing_or_malformed (fsWith "not json")).2 "not json"
     (by decide) (by decide)⟩

/-- C8: saving a well-formed site map and loading the resulting JSON
document gives back the same mapping. -/
theorem save_load_roundtrip (m : SiteMap) (_hwf : WellFormedSiteMap m) :
    load_site_map (fsWith (save_site_map m)) = m := by
  rw [load_site_map,
    show fsWith (save_site_map m) "site_map.json" = some (save_site_map m) from rfl]
  show (match parseSiteMap (save_site_map m) with
    | none => ([] : SiteMap)
    | some m2 => m2) = m
  rw [parseSiteMap_save]

/-- C8 witness: the round trip at a concrete well-formed site map. -/
theorem save_load_roundtrip_witness :
    WellFormedSiteMap mapAbout ∧
      load_site_map (fsWith (save_site_map mapAbout)) = mapAbout :=
  ⟨by unfold WellFormedSiteMap asciiOk; decide,
   save_load_roundtrip mapAbout (by unfold WellFormedSiteMap asciiOk; decide)⟩

/-! ## Crawl loop: frontier helpers (C9) -/

theorem extract_links_eq (base_url : Url) (visited to_visit : List String)
    (hrefs : List HRef) :
    extract_links base_url visited to_visit hrefs =
      hrefs.filterMap (linkRow base_url visited to_visit) := by
  rw [extract_links]
  exact links_fold_eq base_url visited to_visit hrefs []

theorem extract_links_mem (base_url : Url) (visited to_visit : List String)
    (hrefs : List HRef) (p : String)
    (hp : p ∈ extract_links base_url visited to_visit hrefs) :
    p ∈ pagePaths base_url hrefs ∧ p ≠ "" ∧ p ∉ visited ∧ p ∉ to_visit := by
  rw [extract_links_eq] at hp
  obtain ⟨href, hhref, hrow⟩ := List.mem_filterMap.mp hp
  rw [linkRow] at hrow
  by_cases hc : pyStartswith (urlString (urljoin base_url href)) (urlString base_url) ∧
      (urljoin base_url href).path ≠ "" ∧ (urljoin base_url href).path ∉ visited ∧
      (urljoin base_url href).path ∉ to_visit
  · rw [if_pos hc] at hrow
    obtain rfl := Option.some_inj.mp hrow
    refine ⟨?_, hc.2⟩
    rw [pagePaths]
    exact List.mem_filterMap.mpr ⟨href, hhref, by rw [if_pos hc.1]⟩
  · rw [if_neg hc] at hrow
    cases hrow

theorem extract_links_complete (base_url : Url) (visited to_visit : List String)
    (hrefs : List HRef) (q : String) (hq : q ∈ pagePaths base_url hrefs)
    (h1 : q ≠ "") (h2 : q ∉ visited) (h3 : q ∉ to_visit) :
    q ∈ extract_links base_url visited to_visit hrefs := by
  rw [extract_links_eq]
  rw [pagePaths] at hq
  obtain ⟨href, hhref, hrow⟩ := List.mem_filterMap.mp hq
  by_cases hc : pyStartswith (urlString (urljoin base_url href)) (urlString base_url) = true
  · rw [if_pos hc] at hrow
    obtain rfl := Option.some_inj.mp hrow
    exact List.mem_filterMap.mpr
      ⟨href, hhref, by rw [linkRow, if_pos (And.intro hc (And.intro h1 (And.intro h2 h3)))]⟩
  · rw [if_neg hc] at hrow
    cases hrow

theorem filterMap_length_mono {α β γ : Type} (f : α → Option β) (g : α → Option γ)
    (h : ∀ x, (f x).isSome → (g x).isSome) (l : List α) :
    (l.filterMap f).length ≤ (l.filterMap g).length := by
  induction l with
  | nil => simp
  | cons x xs ih =>
    rw [List.filterMap_cons, List.filterMap_cons]
    cases hf : f x with
    | none =>
      cases hg : g x with
      | none => exact ih
      | some c =>
        simp only [List.length_cons]
        exact Nat.le_succ_of_le ih
    | some b =>
      have hgs := h x (by rw [hf]; rfl)
      cases hg : g x with
      | none => rw [hg] at hgs; cases hgs
      | some c =>
        simp only [List.length_cons]
        exact Nat.succ_le_succ ih

theorem extract_links_len (base_url : Url) (visited to_visit : List String)
    (hrefs : List HRef) :
    (extract_links base_url visited to_visit hrefs).length ≤
      (pagePaths base_url hrefs).length := by
  rw [extract_links_eq, pagePaths]
  apply filterMap_length_mono
  intro href hsome
  by_cases hc2 : pyStartswith (urlString (urljoin base_url href)) (urlString base_url) = true
  · rw [if_pos hc2]
    rfl
  · exfalso
    rw [linkRow, if_neg (fun hcc : _ ∧ _ => hc2 hcc.1)] at hsome
    simp at hsome

theorem le_maxLinks (base : Url) (web : Web) (P : List String) (p : String)
    (hp : p ∈ P) : (outPaths base web p).length ≤ maxLinks base web P := by
  induction hp with
  | head as =>
    rw [maxLinks, List.map_cons, List.foldr_cons]
    exact Nat.le_max_left _ _
  | tail b hmem ih =>
    rw [maxLinks, List.map_cons, List.foldr_cons]
    refine Nat.le_trans ih ?_
    rw [maxLinks]
    exact Nat.le_max_right _ _

theorem filter_notmem_cons_len (P : List String) (current : String) (v : List String)
    (hP : P.Nodup) (hcur : current ∈ P) (hnv : current ∉ v) :
    (P.filter fun p => p ∉ current :: v).length + 1 =
      (P.filter fun p => p ∉ v).length := by
  induction P with
  | nil => cases hcur
  | cons x xs ih =>
    have hxs_nodup : xs.Nodup := (List.nodup_cons.mp hP).2
    have hx_nin : x ∉ xs := (List.nodup_cons.mp hP).1
    rcases List.mem_cons.mp hcur with rfl | hx
    · rw [List.filter_cons, List.filter_cons]
      have h1 : (decide (current ∉ current :: v)) = false := by simp
      have h2 : (decide (current ∉ v)) = true := by simp [hnv]
      rw [h1, h2]
      have hcongr : xs.filter (fun p => p ∉ current :: v) = xs.filter (fun p => p ∉ v) := by
        apply List.filter_congr
        intro a ha
        have hane : a ≠ current := fun h => hx_nin (h ▸ ha)
        simp [List.mem_cons, hane]
      rw [if_neg (by decide : ¬(false = true)), if_pos (rfl : (true : Bool) = true),
        hcongr, List.length_cons]
    · have hxc : x ≠ current := fun h => hx_nin (h ▸ hx)
      rw [List.filter_cons, List.filter_cons]
      have hsame : (decide (x ∉ current :: v)) = (decide (x ∉ v)) := by
        simp [List.mem_cons, hxc]
      rw [hsame]
      cases hxv : decide (x ∉ v) with
      | true =>
        rw [if_pos (rfl : (true : Bool) = true), if_pos (rfl : (true : Bool) = true),
          List.length_cons, List.length_cons]
        have := ih hxs_nodup hx
        omega
      | false =>
        rw [if_neg (by decide : ¬(false = true)), if_neg (by decide : ¬(false = true))]
        exact ih hxs_nodup hx

/-- Main loop lemma: under the scenario hypotheses, enough fuel drives
the crawl to the empty queue while maintaining the invariant. -/
theorem crawl_go (base : Url) (web : Web) (mdOk : String → Bool) (P : List String)
    (hnodP : P.Nodup)
    (hfetch : ∀ p ∈ P, (web p).isSome)
    (hclosed : ∀ p ∈ P, ∀ q ∈ outPaths base web p, q ∈ P) :
    ∀ fuel, ∀ s, CrawlInv base web P s → crawlMeasure base web P s ≤ fuel →
      (crawl_loop base web mdOk fuel s).to_visit = [] ∧
      CrawlInv base web P (crawl_loop base web mdOk fuel s) := by
  intro fuel
  induction fuel with
  | zero =>
    intro s hinv hm
    have hq : s.to_visit = [] := by
      rw [crawlMeasure] at hm
      have hlen : s.to_visit.length = 0 := by omega
      exact List.eq_nil_of_length_eq_zero hlen
    have hloop : crawl_loop base web mdOk 0 s = s := by rw [crawl_loop]
    rw [hloop]
    exact ⟨hq, hinv⟩
  | succ f ih =>
    intro s hinv hm
    obtain ⟨hTP, hVP, hVnd, hclo, hroot⟩ := hinv
    cases hq : s.to_visit with
    | nil =>
      have hloop : crawl_loop base web mdOk (f + 1) s = s := by
        simp only [crawl_loop, hq]
      rw [hloop]
      exact ⟨hq, hTP, hVP, hVnd, hclo, hroot⟩
    | cons current rest =>
      by_cases hvis : current ∈ s.visited
      · have hloop : crawl_loop base web mdOk (f + 1) s =
            crawl_loop base web mdOk f { s with to_visit := rest } := by
          simp only [crawl_loop, hq, if_pos hvis]
        rw [hloop]
        apply ih
        · refine ⟨?_, hVP, hVnd, ?_, ?_⟩
          · intro p hp
            exact hTP p (hq ▸ List.mem_cons_of_mem _ hp)
          · intro p hp q hqo hqne
            rcases hclo p hp q hqo hqne with h | h
            · exact Or.inl h
            · rw [hq] at h
              rcases List.mem_cons.mp h with rfl | h2
              · exact Or.inl hvis
              · exact Or.inr h2
          · rcases hroot with h | h
            · exact Or.inl h
            · rw [hq] at h
              rcases List.mem_cons.mp h with rfl | h2
              · exact Or.inl hvis
              · exact Or.inr h2
        · rw [crawlMeasure] at hm ⊢
          rw [hq] at hm
          simp only [List.length_cons] at hm
          dsimp only
          omega
      · have hcurP : current ∈ P := hTP current (hq ▸ List.mem_cons_self _ _)
        have hwebS := hfetch current hcurP
        cases hweb : web current with
        | none =>
          rw [hweb] at hwebS
          simp at hwebS
        | some page =>
          have hloop : crawl_loop base web mdOk (f + 1) s =
              crawl_loop base web mdOk f
                (visitPage base mdOk current page rest s.visited s.site_map) := by
            simp only [crawl_loop, hq, if_neg hvis, hweb]
          rw [hloop]
          have hvs : (visitPage base mdOk current page rest s.visited s.site_map).to_visit =
              rest ++ extract_links base (current :: s.visited) rest page.hrefs := rfl
          have hvv : (visitPage base mdOk current page rest s.visited s.site_map).visited =
              current :: s.visited := rfl
          apply ih
          · refine ⟨?_, ?_, ?_, ?_, ?_⟩
            · intro p hp
              rw [hvs] at hp
              rcases List.mem_append.mp hp with h | h
              · exact hTP p (hq ▸ List.mem_cons_of_mem _ h)
              · have hmem := extract_links_mem base (current :: s.visited) rest page.hrefs p h
                have hpp : p ∈ outPaths base web current := by
                  rw [outPaths, hweb]
                  exact hmem.1
                exact hclosed current hcurP p hpp
            · intro p hp
              rw [hvv] at hp
              rcases List.mem_cons.mp hp with rfl | h
              · exact hcurP
              · exact hVP p h
            · rw [hvv]
              exact List.nodup_cons.mpr ⟨hvis, hVnd⟩
            · intro p hp q hqo hqne
              rw [hvv] at hp
              rw [hvs, hvv]
              rcases List.mem_cons.mp hp with heq | hpold
              · rw [heq] at hqo
                have hqpp : q ∈ pagePaths base page.hrefs := by
                  rw [outPaths, hweb] at hqo
                  exact hqo
                by_cases h1 : q ∈ current :: s.visited
                · exact Or.inl h1
                · by_cases h2 : q ∈ rest
                  · exact Or.inr (List.mem_append.mpr (Or.inl h2))
                  · refine Or.inr (List.mem_append.mpr (Or.inr ?_))
                    exact extract_links_complete base (current :: s.visited) rest
                      page.hrefs q hqpp hqne h1 h2
              · rcases hclo p hpold q hqo hqne with h | h
                · exact Or.inl (List.mem_cons_of_mem _ h)
                · rw [hq] at h
                  rcases List.mem_cons.mp h with rfl | h2
                  · exact Or.inl (List.mem_cons_self _ _)
                  · exact Or.inr (List.mem_append.mpr (Or.inl h2))
            · rcases hroot with h | h
              · rw [hvv]
                exact Or.inl (List.mem_cons_of_mem _ h)
              · rw [hq] at h
                rcases List.mem_cons.mp h with rfl | h2
                · rw [hvv]
                  exact Or.inl (List.mem_cons_self _ _)
                · rw [hvs]
                  exact Or.inr (List.mem_append.mpr (Or.inl h2))
          · have hcount := filter_notmem_cons_len P current s.visited hnodP hcurP hvis
            have hlink : (extract_links base (current :: s.visited) rest page.hrefs).length ≤
                maxLinks base web P := by
              refine Nat.le_trans
                (extract_links_len base (current :: s.visited) rest page.hrefs) ?_
              have hpo : pagePaths base page.hrefs = outPaths base web current := by
                rw [outPaths, hweb]
              rw [hpo]
              exact le_maxLinks base web P current hcurP
            rw [crawlMeasure] at hm ⊢
            rw [hq] at hm
            simp only [hvs, hvv, List.length_append, List.length_cons] at hm ⊢
            rw [← hcount, Nat.succ_mul] at hm
            generalize hK : maxLinks base web P = L at hm hlink ⊢
            generalize hX : (P.filter fun p => p ∉ current :: s.visited).length * (1 + L) = X
              at hm ⊢
            omega

/-- When the queue is empty, the visited set of an invariant state
absorbs everything reachable from the root. -/
theorem reach_visited (base : Url) (web : Web) (P : List String)
    (hne : "" ∉ P)
    (hclosed : ∀ p ∈ P, ∀ q ∈ outPaths base web p, q ∈ P)
    (s : CrawlState) (hq : s.to_visit = [])
    (hinv : CrawlInv base web P s) :
    ∀ q, Reach base web "/" q → "/" ∈ P → q ∈ s.visited ∧ q ∈ P := by
  intro q hreach hrootP
  obtain ⟨hTP, hVP, hVnd, hclo, hroot⟩ := hinv
  have hrootv : "/" ∈ s.visited := by
    rcases hroot with h | h
    · exact h
    · rw [hq] at h
      cases h
  induction hreach with
  | refl => exact ⟨hrootv, hrootP⟩
  | step h1 h2 ih =>
    have hmid := ih
    have hrP := hclosed _ hmid.2 _ h2
    have hrne : _ ≠ "" := fun hcon => hne (hcon ▸ hrP)
    rcases hclo _ hmid.1 _ h2 hrne with h | h
    · exact ⟨h, hrP⟩
    · rw [hq] at h
      cases h

/-- Two duplicate-free lists with the same members have the same length. -/
theorem nodup_subset_length (A B : List String) (hA : A.Nodup) (hB : B.Nodup)
    (h1 : ∀ x ∈ A, x ∈ B) (h2 : ∀ x ∈ B, x ∈ A) : A.length = B.length := by
  have hAB : A.toFinset = B.toFinset := by
    apply Finset.ext
    intro a
    simp only [List.mem_toFinset]
    exact ⟨h1 a, h2 a⟩
  calc A.length = A.toFinset.card := (List.toFinset_card_of_nodup hA).symm
    _ = B.toFinset.card := by rw [hAB]
    _ = B.length := List.toFinset_card_of_nodup hB

/-- C9: over a finite duplicate-free page universe P that contains the
root path, has no empty path, whose pages all fetch successfully, whose
same-domain links stay inside P, and whose pages are all reachable from
the root, the crawl loop reaches the empty queue (halts) within the
stated fuel, and the visited set then has exactly P.length elements. -/
theorem crawl_terminates_visits_all (base : Url) (web : Web) (mdOk : String → Bool)
    (P : List String) (fuel : Nat)
    (hroot : "/" ∈ P) (hnodP : P.Nodup) (hne : "" ∉ P)
    (hfetch : ∀ p ∈ P, (web p).isSome)
    (hclosed : ∀ p ∈ P, ∀ q ∈ outPaths base web p, q ∈ P)
    (hreach : ∀ q ∈ P, Reach base web "/" q)
    (hfuel : P.length * (1 + maxLinks base web P) + 1 ≤ fuel) :
    (crawl_loop base web mdOk fuel initState).to_visit = [] ∧
    (crawl_loop base web mdOk fuel initState).visited.length = P.length := by
  have hinv0 : CrawlInv base web P initState := by
    refine ⟨?_, ?_, ?_, ?_, ?_⟩
    · intro p hp
      have hp1 : p = "/" := by simpa [initState] using hp
      exact hp1 ▸ hroot
    · intro p hp
      simp [initState] at hp
    · simp [initState]
    · intro p hp
      simp [initState] at hp
    · right
      simp [initState]
  have hfil : (P.filter fun p => p ∉ initState.visited) = P := by
    apply List.filter_eq_self.mpr
    intro a ha
    simp [initState]
  have hm0 : crawlMeasure base web P initState ≤ fuel := by
    rw [crawlMeasure, hfil]
    simpa [initState] using hfuel
  obtain ⟨hqF, hinvF⟩ := crawl_go base web mdOk P hnodP hfetch hclosed fuel initState hinv0 hm0
  refine ⟨hqF, ?_⟩
  have hcompl : ∀ q ∈ P, q ∈ (crawl_loop base web mdOk fuel initState).visited := by
    intro q hqP
    exact (reach_visited base web P hne hclosed _ hqF hinvF q (hreach q hqP) hroot).1
  have hsub : ∀ q ∈ (crawl_loop base web mdOk fuel initState).visited, q ∈ P :=
    hinvF.2.1
  exact nodup_subset_length _ P hinvF.2.2.1 hnodP hsub hcompl

/-- C9 witness: a concrete two-page strongly connected site, crawled to
completion. -/
theorem crawl_terminates_visits_all_witness :
    (crawl_loop baseUrl webTwo mdOkAll 20 initState).to_visit = [] ∧
    (crawl_loop baseUrl webTwo mdOkAll 20 initState).visited.length = pTwo.length :=
  crawl_terminates_visits_all baseUrl webTwo mdOkAll pTwo 20
    (by decide) (by decide) (by decide) (by decide) (by decide)
    (by
      intro q hq
      rcases List.mem_cons.mp hq with rfl | hq2
      · exact Reach.refl "/"
      · rcases List.mem_cons.mp hq2 with rfl | hq3
        · exact Reach.step (Reach.refl "/") (by decide)
        · cases hq3)
    (by decide)
